import Mathlib

/-!
# A verification development for the RESCAL tensor factorisation (`rescal.py`)

The repository factors a three-way tensor, given as a list of `K` square
`N × N` adjacency slices, as `X_k ≈ A * R_k * Aᵀ` with a shared `N × R`
factor matrix `A` and per-relation `R × R` core matrices `R_k`, via the
alternating-least-squares scheme of `rescal.py`.

The embedding below works over exact rational matrices (`Matrix (Fin m)
(Fin k) ℚ`), mirroring the numpy code line by line:

* `minv` models `numpy.linalg.inv` (`det⁻¹ • adjugate`, which agrees with
  numpy's inverse on every nonsingular matrix);
* external floating-point primitives with no exact rational counterpart
  (`numpy.linalg.qr`, `numpy.linalg.pinv`, `scipy.sparse.linalg.eigsh`,
  `numpy.random.rand`) are passed in as explicit function parameters in the
  `Prim` structure, so the driver is modelled as a deterministic function of
  those primitives;
* the row-major `flatten` / `reshape(r, r)` pair of the `lmbda ≠ 0` branch
  of `__updateR` is modelled by indexing the flattened `r²`-dimensional
  space with `Fin r × Fin r` (the pair `(i, j)` standing for the row-major
  position `i*r + j`), under which `numpy.kron` is `kron` below and
  `eye(r**2)` is the identity matrix;
* the squared Frobenius norms `norm(·)**2` of the fit computation are
  modelled directly as sums of squares (exact, since squaring cancels the
  square root);
* wall-clock timing (`exectimes`) and logging are not modelled.

Several definitions (`updateRCnt`, `rescalTr`) additionally return counters
of the linear-algebra operations performed on each control path, so that
statements of the form "this is computed once" or "no computation happens
before this error" become provable facts about the embedding.
-/

namespace Rescal

open scoped Matrix

/-- Dense rational matrices indexed by `Fin`, modelling numpy 2-D arrays. -/
abbrev Mat (m k : ℕ) : Type := Matrix (Fin m) (Fin k) ℚ

/-- Model of `numpy.linalg.inv`: the inverse as `det⁻¹ • adjugate`.  On a
nonsingular matrix this is the unique inverse that numpy computes; it is
total (returning the zero matrix on singular input), which matches
Mathlib's `Matrix.inv` (see `minv_eq_inv`). -/
def minv {ι : Type} [Fintype ι] [DecidableEq ι] (M : Matrix ι ι ℚ) : Matrix ι ι ℚ :=
  (M.det)⁻¹ • M.adjugate

/-- Row-major `flatten` of an `r × r` matrix: the pair `(i, j)` stands for
the flat position `i*r + j` of `numpy.ndarray.flatten` (C order). -/
def flat {r : ℕ} (M : Mat r r) : (Fin r × Fin r) → ℚ := fun p => M p.1 p.2

/-- Row-major `reshape(r, r)` of an `r²`-vector, inverse of `flat`. -/
def devec {r : ℕ} (v : (Fin r × Fin r) → ℚ) : Mat r r :=
  Matrix.of fun i j => v (i, j)

/-- `numpy.kron` on two `r × r` matrices, written over the row-major
identification of `Fin (r*r)` with `Fin r × Fin r`:
`kron M N ((i,j), (k,l)) = M i k * N j l`. -/
def kron {r : ℕ} (M N : Mat r r) : Matrix (Fin r × Fin r) (Fin r × Fin r) ℚ :=
  Matrix.of fun p q => M p.1 q.1 * N p.2 q.2

/-- `__updateA` of `rescal.py` (lines 173-184): accumulate
`F += X_k*(A*R_kᵀ) + X_kᵀ*(A*R_k)` and `E += R_k*(AᵀA*R_kᵀ) + R_kᵀ*(AᵀA*R_k)`
over all relations, then return `F * inv(lmbda*eye(rank) + E)`. -/
def updateA {n r : ℕ} (X : List (Mat n n)) (A : Mat n r) (R : List (Mat r r))
    (lmbda : ℚ) : Mat n r :=
  let AtA := Aᵀ * A
  let FE : Mat n r × Mat r r :=
    (X.zip R).foldl
      (fun p XR =>
        (p.1 + (XR.1 * (A * XR.2ᵀ) + XR.1ᵀ * (A * XR.2)),
         p.2 + (XR.2 * (AtA * XR.2ᵀ) + XR.2ᵀ * (AtA * XR.2))))
      (0, 0)
  FE.1 * minv (lmbda • (1 : Mat r r) + FE.2)

/-- `__updateR` of `rescal.py` (lines 186-200).  `pinvf` is the external
`numpy.linalg.pinv` primitive.  When `lmbda = 0` the matrix
`ainv = pinv(AᵀA) * Aᵀ` is formed once and `R_k = ainv * X_k * ainvᵀ`;
otherwise `tmp = inv(kron(AᵀA, AᵀA) + lmbda*eye(r²))` is formed once and
`R_k = reshape(flatten(Aᵀ*X_k*A) ⬝ tmp)`. -/
def updateR {m r : ℕ} (pinvf : Mat r r → Mat r r) (X : List (Mat m m))
    (A : Mat m r) (lmbda : ℚ) : List (Mat r r) :=
  if lmbda = 0 then
    let ainv := pinvf (Aᵀ * A) * Aᵀ
    X.map fun Xi => ainv * (Xi * ainvᵀ)
  else
    let AtA := Aᵀ * A
    let tmp := minv (kron AtA AtA + lmbda • (1 : Matrix (Fin r × Fin r) (Fin r × Fin r) ℚ))
    X.map fun Xi => devec (Matrix.vecMul (flat (Aᵀ * (Xi * A))) tmp)

/-- `__updateR` instrumented with a counter of calls to the two inversion
primitives: the first component counts `pinv` calls, the second `inv`
calls.  Both inversions happen outside the per-relation loop, so the
counters are the constants of the taken branch, independent of the number
of slices. -/
def updateRCnt {m r : ℕ} (pinvf : Mat r r → Mat r r) (X : List (Mat m m))
    (A : Mat m r) (lmbda : ℚ) : (ℕ × ℕ) × List (Mat r r) :=
  if lmbda = 0 then
    let ainv := pinvf (Aᵀ * A) * Aᵀ
    ((1, 0), X.map fun Xi => ainv * (Xi * ainvᵀ))
  else
    let AtA := Aᵀ * A
    let tmp := minv (kron AtA AtA + lmbda • (1 : Matrix (Fin r × Fin r) (Fin r × Fin r) ℚ))
    ((0, 1), X.map fun Xi => devec (Matrix.vecMul (flat (Aᵀ * (Xi * A))) tmp))

/-- `__projectSlices` of `rescal.py` (lines 202-207): `X2_k = Qᵀ * X_k * Q`. -/
def projectSlices {n r : ℕ} (X : List (Mat n n)) (Q : Mat n r) : List (Mat r r) :=
  X.map fun Xi => Qᵀ * (Xi * Q)

/-- `squareFrobeniusNormOfSparse` of `rescal.py` (lines 39-44): the sum of
the diagonal of `M * Mᵀ`, i.e. the squared Frobenius norm. -/
def squareFrobeniusNormOfSparse {m : ℕ} (M : Mat m m) : ℚ :=
  Matrix.trace (M * Mᵀ)

/-- Squared Frobenius norm of a dense matrix, modelling `norm(M)**2`. -/
def normSq {m k : ℕ} (M : Mat m k) : ℚ := ∑ i, ∑ j, (M i j) ^ 2

/-- Elementwise multiply-and-sum, modelling `X.multiply(M).sum()`. -/
def mulSum {m k : ℕ} (M N : Mat m k) : ℚ := ∑ i, ∑ j, M i j * N i j

/-- The objective value computed in the loop body of `rescal` (lines
156-160): `f = 0.5 * (lmbda*norm(A)² + Σ_k (normX_k + norm(A*R_k*Aᵀ)²
- 2*⟨X_k, A*R_k*Aᵀ⟩ + lmbda*norm(R_k)²))`. -/
def fitValue {n r : ℕ} (X : List (Mat n n)) (normX : List ℚ) (A : Mat n r)
    (R : List (Mat r r)) (lmbda : ℚ) : ℚ :=
  (1 / 2) *
    ((X.zip (normX.zip R)).foldl
      (fun acc t =>
        let ARAt := A * (t.2.2 * Aᵀ)
        acc + t.2.1 + normSq ARAt - 2 * mulSum t.1 ARAt + lmbda * normSq t.2.2)
      (lmbda * normSq A))

/-- The external floating-point primitives that `rescal.py` delegates to
LAPACK / ARPACK and to the random number generator.  The driver is a
deterministic function of these. -/
structure Prim (n r : ℕ) where
  /-- `numpy.linalg.qr` (reduced): returns `(Q, A2)` with `A = Q * A2`. -/
  qrf : Mat n r → Mat n r × Mat r r
  /-- `numpy.linalg.pinv` on `r × r` matrices. -/
  pinvf : Mat r r → Mat r r
  /-- `scipy.sparse.linalg.eigsh(S, k=rank)`: the matrix of top-`r`
  eigenvectors of the symmetrised slice sum. -/
  eigshf : Mat n n → Mat n r
  /-- One draw of `numpy.random.rand(n, rank)`. -/
  randf : Mat n r

/-- The keyword-argument dictionary passed to `rescal` (lines 95-102): at
most one value per recognised key, plus the list of unrecognised keys left
over after the five `kwargs.pop` calls. -/
structure Opts where
  init : Option String := none
  proj : Option Bool := none
  maxIter : Option ℕ := none
  conv : Option ℚ := none
  lmbda : Option ℚ := none
  extra : List String := []

/-- The ways a call to `rescal` terminates with a Python exception. -/
inductive Err where
  /-- `ValueError('Unknown keywords ...')` raised at line 102. -/
  | unknownKeys (ks : List String)
  /-- `IndexError` at `X[0].shape` (line 104) when the slice list is empty. -/
  | emptyX
  /-- the `raise 'Unknown init option'` at line 130. -/
  | badInit (s : String)
  /-- `NameError` at `return ... iter+1` (line 171) when `maxIter = 0`, the
  loop body never ran and the loop variable is unbound. -/
  | noIteration
  /-- `ValueError` from `numpy.argmin` on an empty fit list (line 37 with
  `restarts = 0`). -/
  | emptyArgmin
deriving DecidableEq

/-- The result tuple `(A, R, f, iter+1)` of a successful `rescal` call
(execution times are wall-clock and not modelled). -/
structure Result (n r : ℕ) where
  A : Mat n r
  Rs : List (Mat r r)
  f : ℚ
  iters : ℕ

instance {n r : ℕ} : Inhabited (Result n r) := ⟨⟨0, [], 0, 0⟩⟩

/-- `true` on `Except.ok`. -/
def exOk {ε α : Type} : Except ε α → Bool
  | .ok _ => true
  | .error _ => false

/-- One iteration of the ALS loop body of `rescal` (lines 146-160):
`A ← __updateA`, then `R ← __updateR` (through the projection step when
`proj` is set), then the objective value `f`.  Returns `(A', R', f)`. -/
def alsStep {n r : ℕ} (P : Prim n r) (X : List (Mat n n)) (normX : List ℚ)
    (proj : Bool) (lmbda : ℚ) (A : Mat n r) (R : List (Mat r r)) :
    Mat n r × List (Mat r r) × ℚ :=
  let A' := updateA X A R lmbda
  let R' :=
    if proj then
      let QA := P.qrf A'
      updateR P.pinvf (projectSlices X QA.1) QA.2 lmbda
    else updateR P.pinvf X A' lmbda
  (A', R', fitValue X normX A' R' lmbda)

/-- The `for iter in xrange(maxIter)` loop of `rescal` (lines 144-171),
as a recursion on the remaining iteration budget (`fuel`).  `iter` is the
Python loop index, `fit` the previous normalised fit score (initially `0`).
The loop breaks when `iter > 1` and `|fitold - fit| < conv`; when the
budget runs out it returns the same tuple; when `maxIter = 0` the loop body
never runs and the `return` raises `NameError`, modelled as `none`. -/
def alsLoop {n r : ℕ} (P : Prim n r) (X : List (Mat n n)) (normX : List ℚ)
    (sumNormX : ℚ) (proj : Bool) (lmbda conv : ℚ) :
    ℕ → ℕ → Mat n r → List (Mat r r) → ℚ → Option (Result n r)
  | 0, _, _, _, _ => none
  | fuel + 1, iter, A, R, fit =>
    let s := alsStep P X normX proj lmbda A R
    let fit' := 1 - s.2.2 / sumNormX
    if (1 < iter ∧ |fit - fit'| < conv) ∨ fuel = 0 then
      some ⟨s.1, s.2.1, s.2.2, iter + 1⟩
    else
      alsLoop P X normX sumNormX proj lmbda conv fuel (iter + 1) s.1 s.2.1 fit'

/-- The deterministic iteration sequence of the loop body: component `j` is
`(A, R, fit)` after `j` executions of the body, starting from the initial
`(A0, R0, 0)`. -/
def alsSeq {n r : ℕ} (P : Prim n r) (X : List (Mat n n)) (normX : List ℚ)
    (sumNormX : ℚ) (proj : Bool) (lmbda : ℚ) (A0 : Mat n r)
    (R0 : List (Mat r r)) : ℕ → Mat n r × List (Mat r r) × ℚ
  | 0 => (A0, R0, 0)
  | j + 1 =>
    let p := alsSeq P X normX sumNormX proj lmbda A0 R0 j
    let s := alsStep P X normX proj lmbda p.1 p.2.1
    (s.1, s.2.1, 1 - s.2.2 / sumNormX)

/-- The body of `rescal` after option validation (lines 104-171): precompute
the slice norms, initialise `A` (random draw or eigenvectors of the
symmetrised slice sum `Σ_k X_k + X_kᵀ`), compute the initial `R`
(through the projection step when `proj`), then run the ALS loop.  The
`Ops`-style first component counts, for the control path taken, the number
of slice-norm computations, factor initialisations, and solver
(`__updateA` / `__updateR`) calls performed. -/
def rescalMain {n r : ℕ} (P : Prim n r) (X : List (Mat n n)) (opts : Opts) :
    (ℕ × ℕ × ℕ) × Except Err (Result n r) :=
  let ainit := opts.init.getD "nvecs"
  let proj := opts.proj.getD true
  let maxIter := opts.maxIter.getD 500
  let conv := opts.conv.getD (1 / 100000)
  let lmbda := opts.lmbda.getD 0
  let normX := X.map squareFrobeniusNormOfSparse
  let sumNormX := normX.sum
  let runFrom : Mat n r → (ℕ × ℕ × ℕ) × Except Err (Result n r) := fun A0 =>
    let R0 :=
      if proj then
        let QA := P.qrf A0
        updateR P.pinvf (projectSlices X QA.1) QA.2 lmbda
      else updateR P.pinvf X A0 lmbda
    match alsLoop P X normX sumNormX proj lmbda conv maxIter 0 A0 R0 0 with
    | none => ((X.length, 1, 1), .error .noIteration)
    | some res => ((X.length, 1, 1 + 2 * res.iters), .ok res)
  if ainit = "random" then runFrom P.randf
  else if ainit = "nvecs" then
    runFrom (P.eigshf (X.foldl (fun S T => S + T + Tᵀ) 0))
  else ((X.length, 0, 0), .error (.badInit ainit))

/-- `rescal` of `rescal.py` (lines 46-171), instrumented with operation
counters `(norms, inits, solver)`: the number of slice-norm computations,
of factor-matrix initialisations, and of `__updateA` / `__updateR` calls
performed on the control path taken.  The two validation steps that precede
any computation are the unknown-keyword check (line 101) and the `X[0]`
access (line 104). -/
def rescalTr {n r : ℕ} (P : Prim n r) (X : List (Mat n n)) (opts : Opts) :
    (ℕ × ℕ × ℕ) × Except Err (Result n r) :=
  if opts.extra ≠ [] then ((0, 0, 0), .error (.unknownKeys opts.extra))
  else if X.isEmpty then ((0, 0, 0), .error .emptyX)
  else rescalMain P X opts

/-- `rescal` of `rescal.py`: the returned tuple (or raised exception) of a
call, the operation counters dropped. -/
def rescal {n r : ℕ} (P : Prim n r) (X : List (Mat n n)) (opts : Opts) :
    Except Err (Result n r) :=
  (rescalTr P X opts).2

/-- `numpy.argmin` on a list: the index of the first occurrence of the
minimum (`best`/`bv` are the current best index and value, `i` the index of
the head of the unprocessed suffix). -/
def argminAux : List ℚ → ℕ → ℕ → ℚ → ℕ
  | [], _, best, _ => best
  | x :: xs, i, best, bv =>
    if x < bv then argminAux xs (i + 1) i x else argminAux xs (i + 1) best bv

/-- `numpy.argmin` on a nonempty list (`0` on the empty list, where numpy
raises). -/
def argminIdx : List ℚ → ℕ
  | [] => 0
  | x :: xs => argminAux xs 1 0 x

/-- The restart loop of `rescal_with_random_restarts` (lines 33-36): run
`rescal` with `init='random'` for restart indices `i, i+1, ...` (`t` runs
remaining), collecting the results in order; any exception propagates. -/
def runRestartsFrom {n r : ℕ} (P : ℕ → Prim n r) (X : List (Mat n n))
    (opts : Opts) : ℕ → ℕ → Except Err (List (Result n r))
  | _, 0 => .ok []
  | i, t + 1 =>
    match rescal (P i) X { opts with init := some "random" } with
    | .error e => .error e
    | .ok res =>
      match runRestartsFrom P X opts (i + 1) t with
      | .error e => .error e
      | .ok rest => .ok (res :: rest)

/-- `rescal_with_random_restarts` of `rescal.py` (lines 26-37): run the
driver `restarts` times with random initialisation forced (each restart `i`
drawing its own randomness `P i`), then return `models[argmin(fits)]`.
The source passes `init='random', **kwargs`, which is a `TypeError` when
the caller's kwargs already contain `init`; statements about the wrapper
therefore assume `opts.init = none`. -/
def rescal_with_random_restarts {n r : ℕ} (P : ℕ → Prim n r)
    (X : List (Mat n n)) (opts : Opts) (restarts : ℕ) :
    Except Err (Result n r) :=
  match runRestartsFrom P X opts 0 restarts with
  | .error e => .error e
  | .ok models =>
    match models[argminIdx (models.map Result.f)]? with
    | none => .error .emptyArgmin
    | some m => .ok m

/-! ## Helper lemmas -/

theorem minv_eq_inv {ι : Type} [Fintype ι] [DecidableEq ι] (M : Matrix ι ι ℚ) :
    minv M = M⁻¹ := by
  rw [minv, Matrix.inv_def, Ring.inverse_eq_inv]

theorem foldl_addPair {α M N' : Type} [AddCommMonoid M] [AddCommMonoid N']
    (f : α → M) (g : α → N') (l : List α) :
    ∀ (F0 : M) (E0 : N'),
      l.foldl (fun p x => (p.1 + f x, p.2 + g x)) (F0, E0) =
        (F0 + (l.map f).sum, E0 + (l.map g).sum) := by
  induction l with
  | nil => intro F0 E0; simp
  | cons x xs ih => intro F0 E0; simp [ih, add_assoc]

theorem zip_map_sum {α β M : Type} [AddCommMonoid M] (f : α × β → M)
    (da : α) (db : β) :
    ∀ (l : List α) (l' : List β), l.length = l'.length →
      ((l.zip l').map f).sum =
        ∑ k ∈ Finset.range l.length, f (l.getD k da, l'.getD k db) := by
  intro l
  induction l with
  | nil => intro l' _; simp
  | cons x xs ih =>
    intro l' h
    cases l' with
    | nil => simp at h
    | cons y ys =>
      simp only [List.zip_cons_cons, List.map_cons, List.sum_cons,
        List.length_cons]
      rw [Finset.sum_range_succ']
      simp only [List.getD_cons_succ, List.getD_cons_zero]
      rw [ih ys (by simpa using h)]
      exact (add_comm _ _)

section LoopLemmas

variable {n r : ℕ} (P : Prim n r) (X : List (Mat n n)) (normX : List ℚ)
  (sumNormX : ℚ) (proj : Bool) (lmbda conv : ℚ) (A0 : Mat n r)
  (R0 : List (Mat r r))

/-- With at least one iteration of budget the ALS loop always returns. -/
theorem alsLoop_isSome :
    ∀ fuel, 1 ≤ fuel → ∀ iter A R fit,
      (alsLoop P X normX sumNormX proj lmbda conv fuel iter A R fit).isSome =
        true := by
  intro fuel
  induction fuel with
  | zero => intro h; omega
  | succ fuel ih =>
    intro _ iter A R fit
    simp only [alsLoop]
    split
    · simp
    · rename_i hcond
      have hf : ¬fuel = 0 := fun h => hcond (Or.inr h)
      exact ih (by omega) _ _ _ _

/-- The returned iteration count is between `iter + 1` and `iter + fuel`. -/
theorem alsLoop_iters :
    ∀ fuel iter A R fit res,
      alsLoop P X normX sumNormX proj lmbda conv fuel iter A R fit =
          some res →
      iter + 1 ≤ res.iters ∧ res.iters ≤ iter + fuel := by
  intro fuel
  induction fuel with
  | zero => intro iter A R fit res h; simp [alsLoop] at h
  | succ fuel ih =>
    intro iter A R fit res h
    simp only [alsLoop] at h
    split at h
    · cases h
      simp only
      omega
    · have := ih (iter + 1) _ _ _ res h
      omega

/-- Full characterisation of the loop started at index `iter` in the state
reached by `iter` executions of the body: the returned index is in range;
an early return happens exactly at a loop index `> 1` where the fit change
dropped below `conv`; and no earlier index `> 1` (from `iter` on) had a fit
change below `conv`. -/
theorem alsLoop_seq_spec :
    ∀ fuel iter res, 1 ≤ fuel →
      alsLoop P X normX sumNormX proj lmbda conv fuel iter
          (alsSeq P X normX sumNormX proj lmbda A0 R0 iter).1
          (alsSeq P X normX sumNormX proj lmbda A0 R0 iter).2.1
          (alsSeq P X normX sumNormX proj lmbda A0 R0 iter).2.2 =
        some res →
      iter + 1 ≤ res.iters ∧ res.iters ≤ iter + fuel ∧
      (res.iters < iter + fuel →
        1 < res.iters - 1 ∧
        |(alsSeq P X normX sumNormX proj lmbda A0 R0 (res.iters - 1)).2.2 -
            (alsSeq P X normX sumNormX proj lmbda A0 R0 res.iters).2.2| <
          conv) ∧
      (∀ j, iter ≤ j → 1 < j → j + 1 < res.iters →
        ¬ |(alsSeq P X normX sumNormX proj lmbda A0 R0 j).2.2 -
              (alsSeq P X normX sumNormX proj lmbda A0 R0 (j + 1)).2.2| <
            conv) := by
  intro fuel
  induction fuel with
  | zero => intro iter res h; omega
  | succ fuel ih =>
    intro iter res _ h
    have hseq : alsSeq P X normX sumNormX proj lmbda A0 R0 (iter + 1) =
        (let p := alsSeq P X normX sumNormX proj lmbda A0 R0 iter
         let s := alsStep P X normX proj lmbda p.1 p.2.1
         (s.1, s.2.1, 1 - s.2.2 / sumNormX)) := by
      simp only [alsSeq]
    simp only [alsLoop] at h
    split at h
    · rename_i hcond
      cases h
      simp only
      refine ⟨le_refl _, by omega, ?_, by omega⟩
      intro hlt
      have hf : ¬fuel = 0 := by omega
      have hbreak := hcond.resolve_right hf
      refine ⟨by omega, ?_⟩
      simpa [Nat.add_sub_cancel, hseq] using hbreak.2
    · rename_i hcond
      have hf : ¬fuel = 0 := fun hh => hcond (Or.inr hh)
      have h' : alsLoop P X normX sumNormX proj lmbda conv fuel (iter + 1)
          (alsSeq P X normX sumNormX proj lmbda A0 R0 (iter + 1)).1
          (alsSeq P X normX sumNormX proj lmbda A0 R0 (iter + 1)).2.1
          (alsSeq P X normX sumNormX proj lmbda A0 R0 (iter + 1)).2.2 =
          some res := by
        rw [hseq]
        exact h
      obtain ⟨h1, h2, h3, h4⟩ := ih (iter + 1) res (by omega) h'
      refine ⟨by omega, by omega, fun hlt => h3 (by omega), ?_⟩
      intro j hj h1j hjres
      rcases Nat.eq_or_lt_of_le hj with hji | hji
      · subst hji
        intro habs
        exact hcond (Or.inl ⟨h1j, by simpa [hseq] using habs⟩)
      · exact h4 j hji h1j hjres

end LoopLemmas

/-- A concrete instantiation of the external primitives on `1 × 1` data,
used by the concrete witnesses below. -/
def P1 : Prim 1 1 := ⟨fun A => (A, 1), minv, fun _ => !![1], !![1]⟩

/-- A concrete instantiation of the external primitives with entity
dimension `1` and rank `2`, used to exercise the `rank > N` path. -/
def P2 : Prim 1 2 := ⟨fun _ => (0, 0), minv, fun _ => 0, !![1, 1]⟩

/-- Validation helper: a bad `init` value is rejected at the
initialisation dispatch (line 130), which the source reaches only after
the slice norms have been computed; no initialisation or solver call has
happened at that point. -/
theorem rescalTr_badInit {n r : ℕ} (P : Prim n r) (X : List (Mat n n))
    (opts : Opts) (hextra : opts.extra = []) (hX : X.isEmpty = false)
    (h1 : opts.init.getD "nvecs" ≠ "random")
    (h2 : opts.init.getD "nvecs" ≠ "nvecs") :
    rescalTr P X opts =
      ((X.length, 0, 0), .error (.badInit (opts.init.getD "nvecs"))) := by
  unfold rescalTr
  rw [if_neg (by simp [hextra]), if_neg (by simp [hX])]
  unfold rescalMain
  simp only
  rw [if_neg h1, if_neg h2]

/-- Validation helper: with no unknown keys, a nonempty slice list, random
initialisation and a positive iteration budget, `rescal` computes one norm
per slice and returns successfully. -/
theorem rescalTr_random_ok {n r : ℕ} (P : Prim n r) (X : List (Mat n n))
    (opts : Opts) (hextra : opts.extra = []) (hX : X.isEmpty = false)
    (hinit : opts.init.getD "nvecs" = "random")
    (hmi : 1 ≤ opts.maxIter.getD 500) :
    (rescalTr P X opts).1.1 = X.length ∧ exOk (rescalTr P X opts).2 = true := by
  unfold rescalTr
  rw [if_neg (by simp [hextra]), if_neg (by simp [hX])]
  unfold rescalMain
  simp only
  rw [if_pos hinit]
  obtain ⟨res, hres⟩ := Option.isSome_iff_exists.mp
    (alsLoop_isSome P X (X.map squareFrobeniusNormOfSparse)
      (X.map squareFrobeniusNormOfSparse).sum (opts.proj.getD true)
      (opts.lmbda.getD 0) (opts.conv.getD (1 / 100000))
      (opts.maxIter.getD 500) hmi 0 P.randf _ 0)
  rw [hres]
  simp [exOk]

/-! ## The claims -/

/-- C1: one Factor Solver (`__updateA`) step returns
`A_new = F * (λ•I + E)⁻¹`, where `F` is the sum over all `K` relations of
`X_k*(A*R_kᵀ) + X_kᵀ*(A*R_k)` and `E` is the sum over all `K` relations of
`R_k*(AᵀA)*R_kᵀ + R_kᵀ*(AᵀA)*R_k`. -/
theorem C1_updateA_closed_form {n r : ℕ} (X : List (Mat n n)) (A : Mat n r)
    (R : List (Mat r r)) (lmbda : ℚ) (hlen : X.length = R.length) :
    updateA X A R lmbda =
      (∑ k ∈ Finset.range X.length,
        ((X.getD k 0) * (A * (R.getD k 0)ᵀ) + (X.getD k 0)ᵀ * (A * (R.getD k 0)))) *
      (lmbda • (1 : Mat r r) +
        ∑ k ∈ Finset.range X.length,
          ((R.getD k 0) * ((Aᵀ * A) * (R.getD k 0)ᵀ) +
            (R.getD k 0)ᵀ * ((Aᵀ * A) * (R.getD k 0))))⁻¹ := by
  simp only [updateA]
  rw [foldl_addPair
      (fun XR : Mat n n × Mat r r => XR.1 * (A * XR.2ᵀ) + XR.1ᵀ * (A * XR.2))
      (fun XR : Mat n n × Mat r r =>
        XR.2 * ((Aᵀ * A) * XR.2ᵀ) + XR.2ᵀ * ((Aᵀ * A) * XR.2))]
  rw [zip_map_sum _ 0 0 X R hlen, zip_map_sum _ 0 0 X R hlen]
  simp [minv_eq_inv]

/-- C1 witness: the closed form instantiated on the concrete one-relation
instance `X = [[2]]`, `A = [3]`, `R = [[5]]`, `λ = 0`. -/
theorem C1_updateA_closed_form_witness :
    updateA (n := 1) (r := 1) [!![2]] !![3] [!![5]] 0 =
      (∑ k ∈ Finset.range [!![(2 : ℚ)]].length,
        (([!![(2 : ℚ)]].getD k 0) * (!![(3 : ℚ)] * (([!![(5 : ℚ)]].getD k 0))ᵀ) +
          ([!![(2 : ℚ)]].getD k 0)ᵀ * (!![(3 : ℚ)] * ([!![(5 : ℚ)]].getD k 0)))) *
      ((0 : ℚ) • (1 : Mat 1 1) +
        ∑ k ∈ Finset.range [!![(2 : ℚ)]].length,
          (([!![(5 : ℚ)]].getD k 0) *
              ((!![(3 : ℚ)]ᵀ * !![(3 : ℚ)]) * ([!![(5 : ℚ)]].getD k 0)ᵀ) +
            ([!![(5 : ℚ)]].getD k 0)ᵀ *
              ((!![(3 : ℚ)]ᵀ * !![(3 : ℚ)]) * ([!![(5 : ℚ)]].getD k 0))))⁻¹ :=
  C1_updateA_closed_form [!![2]] !![3] [!![5]] 0 rfl

/-- C2: with `λ = 0` the Core Solver (`__updateR`) computes
`ainv = pinv(AᵀA) * Aᵀ` exactly once (one `pinv` call, no `inv` call,
independent of the number of slices) and returns one entry per slice in
input order, the `k`-th being `ainv * X_k * ainvᵀ`. -/
theorem C2_updateR_zero_reg {m r : ℕ} (pinvf : Mat r r → Mat r r)
    (X : List (Mat m m)) (A : Mat m r) :
    updateRCnt pinvf X A 0 =
      ((1, 0), X.map fun Xi =>
        (pinvf (Aᵀ * A) * Aᵀ) * Xi * (pinvf (Aᵀ * A) * Aᵀ)ᵀ) ∧
    (updateRCnt pinvf X A 0).2 = updateR pinvf X A 0 ∧
    (updateR pinvf X A 0).length = X.length ∧
    ∀ k : ℕ, (updateR pinvf X A 0)[k]? =
      X[k]?.map fun Xi =>
        (pinvf (Aᵀ * A) * Aᵀ) * Xi * (pinvf (Aᵀ * A) * Aᵀ)ᵀ := by
  refine ⟨by simp [updateRCnt, Matrix.mul_assoc],
    by simp [updateRCnt, updateR], ?_, ?_⟩
  · simp [updateR]
  · intro k
    simp [updateR, List.getElem?_map, Matrix.mul_assoc]

/-- C3: with `λ > 0` the Core Solver (`__updateR`) forms and inverts the
`r² × r²` matrix `kron(AᵀA, AᵀA) + λ•I` exactly once, outside the
per-relation loop (one `inv` call, no `pinv` call, independent of the
number of slices), and the `k`-th returned core is the row-major reshape of
`flatten(Aᵀ*X_k*A) ⬝ tmp`. -/
theorem C3_updateR_pos_reg {m r : ℕ} (pinvf : Mat r r → Mat r r)
    (X : List (Mat m m)) (A : Mat m r) (lmbda : ℚ) (hl : 0 < lmbda) :
    updateRCnt pinvf X A lmbda =
      ((0, 1), X.map fun Xi =>
        devec (Matrix.vecMul (flat (Aᵀ * Xi * A))
          (minv (kron (Aᵀ * A) (Aᵀ * A) + lmbda • 1)))) ∧
    (updateRCnt pinvf X A lmbda).2 = updateR pinvf X A lmbda ∧
    (updateR pinvf X A lmbda).length = X.length ∧
    ∀ k : ℕ, (updateR pinvf X A lmbda)[k]? =
      X[k]?.map fun Xi =>
        devec (Matrix.vecMul (flat (Aᵀ * Xi * A))
          (minv (kron (Aᵀ * A) (Aᵀ * A) + lmbda • 1))) := by
  have hne : ¬lmbda = 0 := ne_of_gt hl
  refine ⟨by simp [updateRCnt, hne, Matrix.mul_assoc],
    by simp [updateRCnt, updateR, hne], ?_, ?_⟩
  · simp [updateR, hne]
  · intro k
    simp [updateR, hne, List.getElem?_map, Matrix.mul_assoc]

/-- C3 witness: at `λ = 1`, `A = [3]`, `X = [[2]]` the counters are one
`inv` call and no `pinv` call. -/
theorem C3_updateR_pos_reg_witness :
    (updateRCnt (minv : Mat 1 1 → Mat 1 1) [!![2]] !![3] 1).1 = (0, 1) := by
  rw [(C3_updateR_pos_reg (minv : Mat 1 1 → Mat 1 1) [!![2]] !![3] 1
    (by norm_num)).1]

/-- C5: for a fixed factor matrix and slice set, the Core Solver applied
through the Projection Step (`A = Q * A2` with `Qᵀ * Q = 1`, slices
replaced by `X2_k = Qᵀ * X_k * Q`) returns exactly the same core matrices
as the Core Solver on the unprojected data — for both regularisation
branches and any `pinv` primitive, since both branches only consume
`AᵀA = A2ᵀA2` and `Aᵀ*X_k*A = A2ᵀ*X2_k*A2`. -/
theorem C5_projection_equivalence {n r : ℕ} (pinvf : Mat r r → Mat r r)
    (X : List (Mat n n)) (A : Mat n r) (Q : Mat n r) (A2 : Mat r r)
    (lmbda : ℚ) (hQ : Qᵀ * Q = 1) (hA : A = Q * A2) :
    updateR pinvf (projectSlices X Q) A2 lmbda = updateR pinvf X A lmbda := by
  have hQZ : ∀ {p : ℕ} (Z : Matrix (Fin r) (Fin p) ℚ), Qᵀ * (Q * Z) = Z := by
    intro p Z
    rw [← Matrix.mul_assoc, hQ, Matrix.one_mul]
  subst hA
  unfold updateR projectSlices
  by_cases h0 : lmbda = 0
  · simp only [if_pos h0, List.map_map]
    refine List.map_congr_left fun Xi _ => ?_
    simp only [Function.comp_apply, Matrix.transpose_mul,
      Matrix.transpose_transpose, Matrix.mul_assoc, hQZ]
  · simp only [if_neg h0, List.map_map]
    refine List.map_congr_left fun Xi _ => ?_
    simp only [Function.comp_apply, Matrix.transpose_mul,
      Matrix.transpose_transpose, Matrix.mul_assoc, hQZ]

/-- C5 witness: with `Q = [1]`, `A = A2 = [3]`, `X = [[2]]`, `λ = 0` and
`pinv` instantiated by the exact inverse, both routes agree. -/
theorem C5_projection_equivalence_witness :
    updateR (minv : Mat 1 1 → Mat 1 1) (projectSlices [!![2]] !![1]) !![3] 0 =
      updateR minv [!![2]] !![3] 0 :=
  C5_projection_equivalence minv [!![2]] !![3] !![1] !![3] 0
    (by ext i j; fin_cases i; fin_cases j; simp [Matrix.mul_apply])
    (by norm_num [Matrix.mul_apply])

/-- C4: the ALS driver loop stops by convergence only at a loop index
`iter > 1` with `|Δfit| < conv`, i.e. a returned iteration count below the
ceiling `maxIter` is at least `3` and the fit change at the breaking step
was below `conv`; no earlier index `> 1` had a small fit change; otherwise
the loop runs to the ceiling and returns `iters = maxIter` — in particular
with `maxIter ≤ 2` it never stops by convergence, regardless of the fit
values of iterations `0` and `1` (`alsSeq` is the sequence of loop-body
states; its third component is the normalised fit). -/
theorem C4_stopping_rule {n r : ℕ} (P : Prim n r) (X : List (Mat n n))
    (normX : List ℚ) (sumNormX : ℚ) (proj : Bool) (lmbda conv : ℚ)
    (A0 : Mat n r) (R0 : List (Mat r r)) (maxIter : ℕ) (hmi : 1 ≤ maxIter) :
    (alsLoop P X normX sumNormX proj lmbda conv maxIter 0 A0 R0 0).isSome =
      true ∧
    ∀ res,
      alsLoop P X normX sumNormX proj lmbda conv maxIter 0 A0 R0 0 =
        some res →
      1 ≤ res.iters ∧ res.iters ≤ maxIter ∧
      (res.iters < maxIter →
        3 ≤ res.iters ∧
        |(alsSeq P X normX sumNormX proj lmbda A0 R0 (res.iters - 1)).2.2 -
            (alsSeq P X normX sumNormX proj lmbda A0 R0 res.iters).2.2| <
          conv) ∧
      (maxIter ≤ 2 → res.iters = maxIter) ∧
      (∀ j, 1 < j → j + 1 < res.iters →
        ¬ |(alsSeq P X normX sumNormX proj lmbda A0 R0 j).2.2 -
              (alsSeq P X normX sumNormX proj lmbda A0 R0 (j + 1)).2.2| <
            conv) := by
  constructor
  · exact alsLoop_isSome P X normX sumNormX proj lmbda conv maxIter hmi 0 A0 R0 0
  · intro res h
    have h0 : alsLoop P X normX sumNormX proj lmbda conv maxIter 0
        (alsSeq P X normX sumNormX proj lmbda A0 R0 0).1
        (alsSeq P X normX sumNormX proj lmbda A0 R0 0).2.1
        (alsSeq P X normX sumNormX proj lmbda A0 R0 0).2.2 = some res := by
      simpa [alsSeq] using h
    obtain ⟨h1, h2, h3, h4⟩ :=
      alsLoop_seq_spec P X normX sumNormX proj lmbda conv A0 R0 maxIter 0
        res hmi h0
    refine ⟨by omega, by omega, ?_, ?_, ?_⟩
    · intro hlt
      obtain ⟨ha, hb⟩ := h3 (by omega)
      exact ⟨by omega, hb⟩
    · intro hm2
      by_contra hne
      have : res.iters < maxIter := by omega
      obtain ⟨ha, _⟩ := h3 (by omega)
      omega
    · intro j h1j hjres
      exact h4 j (by omega) h1j hjres

/-- C4 witness: an `alsLoop` run with budget `1` on concrete `1 × 1` data. -/
theorem C4_stopping_rule_witness :
    (alsLoop P1 [!![1]] [1] 1 false 0 (1 / 100000) 1 0 !![1] [!![1]]
      0).isSome = true :=
  (C4_stopping_rule P1 [!![1]] [1] 1 false 0 (1 / 100000) !![1] [!![1]] 1
    (by norm_num)).1

/-- C7: a call whose keyword arguments contain an unrecognised key fails
with the unknown-keyword `ValueError` before any computation: no slice
norm, no initialisation and no solver call has been performed (all three
operation counters are `0`). -/
theorem C7_unknown_keys_reject {n r : ℕ} (P : Prim n r) (X : List (Mat n n))
    (opts : Opts) (h : opts.extra ≠ []) :
    rescalTr P X opts = ((0, 0, 0), .error (.unknownKeys opts.extra)) := by
  unfold rescalTr
  rw [if_pos h]

/-- C7 witness: a concrete call with the unknown key `"bogus"`. -/
theorem C7_unknown_keys_reject_witness :
    rescalTr P1 [!![1]] { extra := ["bogus"] } =
      ((0, 0, 0), .error (.unknownKeys ["bogus"])) :=
  C7_unknown_keys_reject P1 [!![1]] { extra := ["bogus"] } (by simp)

/-- C8 counterexample: with the unrecognised `init` value `"foo"` the call
does fail with the configuration error, but only after the slice norms
have been precomputed — the norm counter at the failure is `1`, not `0`,
refuting "before the slice norms are precomputed". -/
theorem C8_counterexample :
    (rescalTr P1 [!![1]] { init := some "foo" }).2 =
      .error (.badInit "foo") ∧
    (rescalTr P1 [!![1]] { init := some "foo" }).1.1 ≠ 0 := by
  have h := rescalTr_badInit P1 [!![1]] { init := some "foo" } rfl rfl
    (by simp) (by simp)
  rw [h]
  simp

/-- C8 (amended): a call whose `init` option is neither `"nvecs"` nor
`"random"` fails with the configuration error at the initialisation
dispatch — before any factor initialisation and before any solver call,
but after the slice norms have been precomputed (one norm per slice). -/
theorem C8_bad_init_after_norms {n r : ℕ} (P : Prim n r)
    (X : List (Mat n n)) (opts : Opts) (hextra : opts.extra = [])
    (hX : X.isEmpty = false) (h1 : opts.init.getD "nvecs" ≠ "random")
    (h2 : opts.init.getD "nvecs" ≠ "nvecs") :
    rescalTr P X opts =
      ((X.length, 0, 0), .error (.badInit (opts.init.getD "nvecs"))) :=
  rescalTr_badInit P X opts hextra hX h1 h2

/-- C8 witness: the amended statement at the concrete input of the
counterexample. -/
theorem C8_bad_init_after_norms_witness :
    rescalTr P1 [!![1]] { init := some "foo" } =
      ((1, 0, 0), .error (.badInit "foo")) :=
  C8_bad_init_after_norms P1 [!![1]] { init := some "foo" } rfl rfl
    (by simp) (by simp)

/-- C9 counterexample: a call with rank `2` greater than the entity
dimension `1` (and valid options, random init) is not reported as a
configuration error at all, and slice norms are computed — refuting
"reported immediately as a configuration error with no partial computation
performed" for the `rank > N` half of the claim. -/
theorem C9_counterexample :
    (rescalTr P2 [!![1]]
        { init := some "random", proj := some false,
          maxIter := some 1 }).1.1 ≠ 0 ∧
    exOk (rescalTr P2 [!![1]]
        { init := some "random", proj := some false,
          maxIter := some 1 }).2 = true := by
  have h := rescalTr_random_ok P2 [!![1]]
    { init := some "random", proj := some false, maxIter := some 1 }
    rfl rfl rfl (by norm_num)
  refine ⟨?_, h.2⟩
  rw [h.1]
  norm_num

/-- C9 (amended): an empty slice sequence is rejected immediately (the
`X[0]` index error, before any computation: all counters `0`); but
`rank > N` is not validated — with random initialisation the validation
passes for every rank, the slice norms are computed, and the call returns
successfully. -/
theorem C9_validation {n r : ℕ} (P : Prim n r) (X : List (Mat n n))
    (opts : Opts) :
    (opts.extra = [] → X.isEmpty = true →
      rescalTr P X opts = ((0, 0, 0), .error .emptyX)) ∧
    (opts.extra = [] → X.isEmpty = false →
      opts.init.getD "nvecs" = "random" → 1 ≤ opts.maxIter.getD 500 →
      (rescalTr P X opts).1.1 = X.length ∧
      exOk (rescalTr P X opts).2 = true) := by
  constructor
  · intro hextra hX
    unfold rescalTr
    rw [if_neg (by simp [hextra]), if_pos hX]
  · intro hextra hX hinit hmi
    exact rescalTr_random_ok P X opts hextra hX hinit hmi

/-- C9 witness: the amended statement at concrete inputs — the empty slice
list is rejected with zero counters. -/
theorem C9_validation_witness :
    rescalTr P1 [] { } = ((0, 0, 0), .error .emptyX) :=
  (C9_validation P1 [] { }).1 rfl rfl

/-- C10: `rescal` with `maxIter = 0` raises (the loop body never runs and
the `return` references the unbound loop variable) instead of returning;
and every successful return carries an iteration count of at least `1`. -/
theorem C10_positive_iterations {n r : ℕ} (P : Prim n r)
    (X : List (Mat n n)) (opts : Opts) :
    (opts.extra = [] → X.isEmpty = false → opts.maxIter = some 0 →
      (opts.init.getD "nvecs" = "random" ∨
        opts.init.getD "nvecs" = "nvecs") →
      rescal P X opts = .error .noIteration) ∧
    (∀ res, rescal P X opts = .ok res → 1 ≤ res.iters) := by
  constructor
  · intro hextra hX hmi hinit
    unfold rescal rescalTr
    rw [if_neg (by simp [hextra]), if_neg (by simp [hX])]
    unfold rescalMain
    simp only [hmi]
    rcases hinit with hinit | hinit
    · rw [if_pos hinit]
      simp [alsLoop]
    · rw [if_neg (by simp [hinit]), if_pos hinit]
      simp [alsLoop]
  · intro res h
    unfold rescal rescalTr at h
    split at h
    · simp at h
    · split at h
      · simp at h
      · unfold rescalMain at h
        simp only at h
        split at h
        · split at h
          · simp at h
          · rename_i res' heq
            have hb := alsLoop_iters P X (X.map squareFrobeniusNormOfSparse)
              (X.map squareFrobeniusNormOfSparse).sum (opts.proj.getD true)
              (opts.lmbda.getD 0) (opts.conv.getD (1 / 100000))
              (opts.maxIter.getD 500) 0 _ _ _ res' heq
            have hres : res' = res := by simpa using h
            subst hres
            omega
        · split at h
          · split at h
            · simp at h
            · rename_i res' heq
              have hb := alsLoop_iters P X (X.map squareFrobeniusNormOfSparse)
                (X.map squareFrobeniusNormOfSparse).sum (opts.proj.getD true)
                (opts.lmbda.getD 0) (opts.conv.getD (1 / 100000))
                (opts.maxIter.getD 500) 0 _ _ _ res' heq
              have hres : res' = res := by simpa using h
              subst hres
              omega
          · simp at h

/-- Invariant-carrying specification of `argminAux`: `vf` is the whole
value sequence; `xs` is its suffix starting at index `i`; `best` is the
index of the strict-first minimum of the prefix, with value `bv`. -/
theorem argminAux_spec (vf : ℕ → ℚ) :
    ∀ (xs : List ℚ) (i best : ℕ) (bv : ℚ),
      (∀ k, k < xs.length → vf (i + k) = xs.getD k 0) →
      vf best = bv → best < i →
      (∀ j, j < i → bv ≤ vf j) →
      (∀ j, j < best → bv < vf j) →
      argminAux xs i best bv < i + xs.length ∧
      (∀ j, j < i + xs.length → vf (argminAux xs i best bv) ≤ vf j) ∧
      (∀ j, j < argminAux xs i best bv → vf (argminAux xs i best bv) < vf j) := by
  intro xs
  induction xs with
  | nil =>
    intro i best bv hmatch hbest hlt hmin hfirst
    simp only [argminAux, List.length_nil, Nat.add_zero]
    refine ⟨hlt, fun j hj => ?_, fun j hj => ?_⟩
    · rw [hbest]; exact hmin j hj
    · rw [hbest]; exact hfirst j hj
  | cons x xs ih =>
    intro i best bv hmatch hbest hlt hmin hfirst
    have hx : vf i = x := by simpa using hmatch 0 (by simp)
    have hshift : ∀ k, k < xs.length → vf (i + 1 + k) = xs.getD k 0 := by
      intro k hk
      have h := hmatch (k + 1) (by simpa using Nat.succ_lt_succ hk)
      rw [List.getD_cons_succ] at h
      rw [show i + 1 + k = i + (k + 1) by omega]
      exact h
    simp only [argminAux]
    by_cases hxb : x < bv
    · rw [if_pos hxb]
      have hmin' : ∀ j, j < i + 1 → x ≤ vf j := by
        intro j hj
        rcases Nat.lt_succ_iff_lt_or_eq.mp hj with hj' | rfl
        · exact le_of_lt (lt_of_lt_of_le hxb (hmin j hj'))
        · exact le_of_eq hx.symm
      have hfirst' : ∀ j, j < i → x < vf j := fun j hj =>
        lt_of_lt_of_le hxb (hmin j hj)
      obtain ⟨c1, c2, c3⟩ := ih (i + 1) i x hshift hx (by omega) hmin' hfirst'
      refine ⟨by simp only [List.length_cons]; omega,
        fun j hj => c2 j (by simp only [List.length_cons] at hj; omega), c3⟩
    · rw [if_neg hxb]
      have hbvx : bv ≤ x := le_of_not_lt hxb
      have hmin' : ∀ j, j < i + 1 → bv ≤ vf j := by
        intro j hj
        rcases Nat.lt_succ_iff_lt_or_eq.mp hj with hj' | rfl
        · exact hmin j hj'
        · rw [hx]; exact hbvx
      obtain ⟨c1, c2, c3⟩ := ih (i + 1) best bv hshift hbest (by omega) hmin'
        hfirst
      exact ⟨by simp only [List.length_cons]; omega,
        fun j hj => c2 j (by simp only [List.length_cons] at hj; omega), c3⟩

/-- `argminIdx` of a nonempty list is an in-range index of a minimal
element, and every earlier element is strictly larger (the stable argmin of
`numpy.argmin`). -/
theorem argminIdx_spec (l : List ℚ) (hl : l ≠ []) :
    argminIdx l < l.length ∧
    (∀ j, j < l.length → l.getD (argminIdx l) 0 ≤ l.getD j 0) ∧
    (∀ j, j < argminIdx l → l.getD (argminIdx l) 0 < l.getD j 0) := by
  cases l with
  | nil => exact absurd rfl hl
  | cons x xs =>
    have hm : ∀ k, k < xs.length →
        (fun j => (x :: xs).getD j 0) (1 + k) = xs.getD k 0 := by
      intro k hk
      simp only
      rw [show 1 + k = k + 1 by omega, List.getD_cons_succ]
    have hmin0 : ∀ j, j < 1 → x ≤ (fun j => (x :: xs).getD j 0) j := by
      intro j hj
      have hj0 : j = 0 := by omega
      subst hj0
      simp
    obtain ⟨c1, c2, c3⟩ := argminAux_spec (fun j => (x :: xs).getD j 0) xs 1 0 x
      hm (by simp) (by omega) hmin0 (fun j hj => absurd hj (Nat.not_lt_zero j))
    simp only [argminIdx]
    refine ⟨?_, fun j hj => ?_, fun j hj => c3 j hj⟩
    · simp only [List.length_cons]
      omega
    · exact c2 j (by simp only [List.length_cons] at hj; omega)

/-- When every restart call succeeds, the restart loop succeeds. -/
theorem runRestartsFrom_isOk {n r : ℕ} (P : ℕ → Prim n r)
    (X : List (Mat n n)) (opts : Opts)
    (hok : ∀ i,
      exOk (rescal (P i) X { opts with init := some "random" }) = true) :
    ∀ t i, exOk (runRestartsFrom P X opts i t) = true := by
  intro t
  induction t with
  | zero => intro i; simp [runRestartsFrom, exOk]
  | succ t ih =>
    intro i
    simp only [runRestartsFrom]
    rcases hres : rescal (P i) X { opts with init := some "random" } with
      e | res
    · have h := hok i
      rw [hres] at h
      simp [exOk] at h
    · rcases hrest : runRestartsFrom P X opts (i + 1) t with e' | rest
      · have h := ih (i + 1)
        rw [hrest] at h
        simp [exOk] at h
      · simp [exOk]

/-- A successful restart loop returns one result per restart, in restart
order, each being the successful result of `rescal` with `init` forced to
`"random"` on that restart's randomness. -/
theorem runRestartsFrom_entries {n r : ℕ} (P : ℕ → Prim n r)
    (X : List (Mat n n)) (opts : Opts) :
    ∀ t i models, runRestartsFrom P X opts i t = .ok models →
      models.length = t ∧
      ∀ k, k < t → models[k]? =
        (rescal (P (i + k)) X { opts with init := some "random" }).toOption := by
  intro t
  induction t with
  | zero =>
    intro i models h
    simp only [runRestartsFrom] at h
    cases h
    exact ⟨rfl, fun k hk => absurd hk (by omega)⟩
  | succ t ih =>
    intro i models h
    simp only [runRestartsFrom] at h
    rcases hres : rescal (P i) X { opts with init := some "random" } with
      e | res
    · rw [hres] at h
      simp at h
    · rw [hres] at h
      rcases hrest : runRestartsFrom P X opts (i + 1) t with e' | rest
      · rw [hrest] at h
        simp at h
      · rw [hrest] at h
        simp only at h
        cases h
        obtain ⟨hlen, hent⟩ := ih (i + 1) rest hrest
        refine ⟨by simp [hlen], ?_⟩
        intro k hk
        cases k with
        | zero => simp [hres, Except.toOption]
        | succ k =>
          have h' := hent k (by omega)
          simpa [show i + (k + 1) = i + 1 + k by omega] using h'

/-- C10 witness: the `maxIter = 0` branch at a concrete input. -/
theorem C10_positive_iterations_witness :
    rescal P1 [!![1]] { maxIter := some 0 } = .error .noIteration :=
  (C10_positive_iterations P1 [!![1]] { maxIter := some 0 }).1 rfl rfl rfl
    (Or.inr rfl)

/-- C6: under valid options the Random-Restart Wrapper runs the driver
exactly `restarts` times, forcing `init = "random"` on every run (the
models list has one successful entry per restart index, in order), and
returns the model at the stable argmin of the objective values: an index
carrying a minimal `f`, with every earlier index strictly larger; in
particular on the objective values `[0.5, 0.2, 0.8, 0.2]` the selected
index is `1`. -/
theorem C6_random_restarts {n r : ℕ} (P : ℕ → Prim n r)
    (X : List (Mat n n)) (opts : Opts) (restarts : ℕ) (hr : 1 ≤ restarts)
    (hX : X.isEmpty = false) (hextra : opts.extra = [])
    (_hinit : opts.init = none) (hmi : 1 ≤ opts.maxIter.getD 500) :
    exOk (runRestartsFrom P X opts 0 restarts) = true ∧
    (∀ models, runRestartsFrom P X opts 0 restarts = .ok models →
      models.length = restarts ∧
      (∀ k, k < restarts → models[k]? =
        (rescal (P k) X { opts with init := some "random" }).toOption) ∧
      argminIdx (models.map Result.f) < restarts ∧
      rescal_with_random_restarts P X opts restarts =
        .ok (models.getD (argminIdx (models.map Result.f)) default) ∧
      (∀ j, j < restarts →
        (models.map Result.f).getD (argminIdx (models.map Result.f)) 0 ≤
          (models.map Result.f).getD j 0) ∧
      (∀ j, j < argminIdx (models.map Result.f) →
        (models.map Result.f).getD (argminIdx (models.map Result.f)) 0 <
          (models.map Result.f).getD j 0)) ∧
    argminIdx [(1 : ℚ) / 2, 1 / 5, 4 / 5, 1 / 5] = 1 := by
  have hok : ∀ i,
      exOk (rescal (P i) X { opts with init := some "random" }) = true := by
    intro i
    exact (rescalTr_random_ok (P i) X { opts with init := some "random" }
      hextra hX rfl hmi).2
  refine ⟨runRestartsFrom_isOk P X opts hok restarts 0, ?_, ?_⟩
  · intro models hm
    obtain ⟨hlen, hent⟩ := runRestartsFrom_entries P X opts restarts 0 models hm
    have hne : models.map Result.f ≠ [] := by
      intro habs
      have : models = [] := by simpa using habs
      rw [this] at hlen
      simp at hlen
      omega
    obtain ⟨a1, a2, a3⟩ := argminIdx_spec (models.map Result.f) hne
    have hlenf : (models.map Result.f).length = restarts := by simp [hlen]
    have hidx : argminIdx (models.map Result.f) < models.length := by omega
    refine ⟨hlen, fun k hk => by simpa using hent k hk, by omega, ?_,
      fun j hj => a2 j (by omega), a3⟩
    unfold rescal_with_random_restarts
    rw [hm]
    simp only
    rw [List.getElem?_eq_getElem hidx]
    simp only
    rw [List.getD_eq_getElem?_getD, List.getElem?_eq_getElem hidx]
    simp
  · norm_num [argminIdx, argminAux]

/-- C6 witness: a single restart on concrete `1 × 1` data. -/
theorem C6_random_restarts_witness :
    exOk (runRestartsFrom (fun _ => P1) [!![1]]
      { proj := some false, maxIter := some 1 } 0 1) = true :=
  (C6_random_restarts (fun _ => P1) [!![1]]
    { proj := some false, maxIter := some 1 } 1 (by norm_num) rfl rfl rfl
    (by simp)).1

end Rescal
